import Mathlib

/-!
# Verification of the veil-proxy core against its specification

Shallow embedding of the routing, gRPC framing/header, WASM HTTP-call and
HTTP/2 client-stream-id components of the veil-proxy reverse proxy, together
with theorems settling the specification claims about them.

Strings are modelled at the character level (`List Char`); byte buffers as
`List Nat` with each element a byte value.  Machine integers are modelled as
`Nat` with explicit `% 2^w` where the source relies on wrapping.
-/

/-- Character-level string, the model of Rust `&str` / `String`. -/
abbrev Str := List Char

/-- ASCII lowercasing of one character. Models Rust `to_lowercase` on the
ASCII inputs this development uses (Rust's full Unicode lowercasing agrees
with this on ASCII). -/
def lowerChar (c : Char) : Char :=
  if 'A' ≤ c ∧ c ≤ 'Z' then Char.ofNat (c.toNat + 32) else c

/-- ASCII lowercasing of a string, the model of `str::to_lowercase`. -/
def lowerStr (s : Str) : Str := s.map lowerChar

-- ====================
-- gRPC framing (src/grpc/framing.rs)
-- ====================

/-- gRPC error type (`GrpcError`); only the variants reachable from the
decoder are modelled. -/
inductive GrpcError where
  | insufficientData (required available : Nat)
  | messageTooLarge (size max : Nat)
  deriving DecidableEq, Repr

/-- gRPC message frame (`GrpcFrame`): compression flag plus payload bytes. -/
structure GrpcFrame where
  compressed : Bool
  data : List Nat
  deriving DecidableEq, Repr

/-- Big-endian byte extraction of `(n as u32).to_be_bytes()`.  For every
`n : Nat` this equals the four bytes of `n % 2^32` in big-endian order. -/
def u32be (n : Nat) : List Nat :=
  [n / 16777216 % 256, n / 65536 % 256, n / 256 % 256, n % 256]

/-- `GrpcFrame::encode`: flags byte (bit 0 = compressed), 4-byte big-endian
length (`data.len() as u32`, truncating), then the payload. -/
def GrpcFrame.encode (f : GrpcFrame) : List Nat :=
  (if f.compressed then 1 else 0) :: u32be f.data.length ++ f.data

/-- `decode_grpc_frame_with_max_size`: reject a short buffer, read the
5-byte header, reject a declared length above `maxSize` before touching the
payload, reject an incomplete payload, otherwise return the frame and the
number of bytes consumed. -/
def decode_grpc_frame_with_max_size (buf : List Nat) (maxSize : Nat) :
    Except GrpcError (GrpcFrame × Nat) :=
  match buf with
  | b0 :: b1 :: b2 :: b3 :: b4 :: rest =>
    let compressed := b0 == 1
    let length := ((b1 * 256 + b2) * 256 + b3) * 256 + b4
    if length > maxSize then
      .error (.messageTooLarge length maxSize)
    else
      let totalLen := 5 + length
      if (b0 :: b1 :: b2 :: b3 :: b4 :: rest).length < totalLen then
        .error (.insufficientData totalLen (b0 :: b1 :: b2 :: b3 :: b4 :: rest).length)
      else
        .ok (⟨compressed, rest.take length⟩, totalLen)
  | _ => .error (.insufficientData 5 buf.length)

/-- Streaming decoder state (`GrpcFrameDecoder`): internal buffer plus the
configured maximum message size. -/
structure GrpcFrameDecoder where
  buffer : List Nat
  max_message_size : Nat
  deriving DecidableEq, Repr

/-- `GrpcFrameDecoder::decode_next`: returns `Ok none` when no complete
frame is buffered, drains and yields a decoded frame, and propagates every
error other than `InsufficientData` with the buffer left untouched. -/
def GrpcFrameDecoder.decode_next (d : GrpcFrameDecoder) :
    Except GrpcError (Option GrpcFrame) × GrpcFrameDecoder :=
  if d.buffer.length < 5 then (.ok none, d)
  else
    match decode_grpc_frame_with_max_size d.buffer d.max_message_size with
    | .ok (frame, consumed) => (.ok (some frame), ⟨d.buffer.drop consumed, d.max_message_size⟩)
    | .error (.insufficientData _ _) => (.ok none, d)
    | .error e => (.error e, d)

-- ====================
-- gRPC timeout header (src/grpc/headers.rs)
-- ====================

/-- UTF-8 continuation byte test (`0x80..=0xBF`). -/
def cont8 (b : Nat) : Bool := 128 ≤ b && b ≤ 191

/-- UTF-8 validity of a byte sequence, the model of
`std::str::from_utf8(..).is_ok()` (WHATWG table: rejects overlong forms,
surrogates and code points above U+10FFFF). -/
def utf8Valid : List Nat → Bool
  | [] => true
  | b :: rest =>
    if b ≤ 127 then utf8Valid rest
    else if 194 ≤ b && b ≤ 223 then
      match rest with
      | c1 :: r => cont8 c1 && utf8Valid r
      | [] => false
    else if 224 ≤ b && b ≤ 239 then
      match rest with
      | c1 :: c2 :: r =>
        (if b = 224 then 160 ≤ c1 && c1 ≤ 191
         else if b = 237 then 128 ≤ c1 && c1 ≤ 159
         else cont8 c1) && cont8 c2 && utf8Valid r
      | _ => false
    else if 240 ≤ b && b ≤ 244 then
      match rest with
      | c1 :: c2 :: c3 :: r =>
        (if b = 240 then 144 ≤ c1 && c1 ≤ 191
         else if b = 244 then 128 ≤ c1 && c1 ≤ 143
         else cont8 c1) && cont8 c2 && cont8 c3 && utf8Valid r
      | _ => false
    else false

/-- ASCII decimal digit byte test. -/
def isDigitByte (b : Nat) : Bool := 48 ≤ b && b ≤ 57

/-- Value of a digit-byte string read left to right. -/
def digitsVal (s : List Nat) : Nat := s.foldl (fun acc b => acc * 10 + (b - 48)) 0

/-- Model of Rust `str::parse::<u64>` on a byte string: an optional leading
`+`, then one or more ASCII digits, rejected on overflow past `2^64 - 1`
(Rust checks overflow at every fold step; since the accumulated value only
grows, that is equivalent to the final bound check used here). -/
def parseU64 (s : List Nat) : Option Nat :=
  let t := match s with | 43 :: rest => rest | _ => s
  if t ≠ [] ∧ t.all isDigitByte then
    if digitsVal t < 18446744073709551616 then some (digitsVal t) else none
  else none

/-- Outcome of running `parse_grpc_timeout`: either the Rust function panics
or it returns an `Option<Duration>` (durations are modelled as their total
nanosecond count). -/
inductive ParseRun where
  | panics : ParseRun
  | ok (r : Option Nat) : ParseRun
  deriving DecidableEq, Repr

/-- `parse_grpc_timeout`: empty and non-UTF-8 inputs give `None`; then
`s.split_at(s.len() - 1)` panics when byte index `len - 1` is not a char
boundary (i.e. the final byte is a continuation byte `0x80..=0xBF`);
otherwise the digit part is parsed as `u64` and scaled by the single-byte
unit `H`/`M`/`S`/`m`/`u`/`n`.  The `H` and `M` scalings multiply in `u64`,
which wraps modulo `2^64` in release builds. -/
def parse_grpc_timeout (value : List Nat) : ParseRun :=
  if value = [] then .ok none
  else if utf8Valid value = false then .ok none
  else
    match value.getLast? with
    | none => .ok none
    | some last =>
      if 128 ≤ last ∧ last < 192 then .panics
      else
        match parseU64 value.dropLast with
        | none => .ok none
        | some num =>
          if last = 72 then .ok (some (num * 3600 % 18446744073709551616 * 1000000000))
          else if last = 77 then .ok (some (num * 60 % 18446744073709551616 * 1000000000))
          else if last = 83 then .ok (some (num * 1000000000))
          else if last = 109 then .ok (some (num * 1000000))
          else if last = 117 then .ok (some (num * 1000))
          else if last = 110 then .ok (some num)
          else .ok none

/-- Decimal digit bytes of `n`, most significant first (fuel-indexed helper
so that the definition is structurally recursive). -/
def natDigitsAux : Nat → Nat → List Nat
  | 0, _ => []
  | fuel + 1, n => if n < 10 then [48 + n] else natDigitsAux fuel (n / 10) ++ [48 + n % 10]

/-- Decimal digit bytes of `n`, the model of `format!("{}", n)`. -/
def natToDigitBytes (n : Nat) : List Nat := natDigitsAux (n + 1) n

/-- `format_grpc_timeout` on a duration given as its total nanosecond
count: `0n` for zero, then the branch cascade of the source — note that the
hour and minute branches test only `as_secs() % 3600 == 0` resp.
`% 60 == 0` and never look at the subsecond nanoseconds. -/
def format_grpc_timeout (d : Nat) : List Nat :=
  if d = 0 then [48, 110]
  else
    let secs := d / 1000000000
    if secs / 3600 > 0 ∧ secs % 3600 = 0 then natToDigitBytes (secs / 3600) ++ [72]
    else if secs / 60 > 0 ∧ secs % 60 = 0 then natToDigitBytes (secs / 60) ++ [77]
    else if secs > 0 ∧ d % 1000000000 = 0 then natToDigitBytes secs ++ [83]
    else if d / 1000000 > 0 ∧ d % 1000000 = 0 then natToDigitBytes (d / 1000000) ++ [109]
    else if d / 1000 > 0 ∧ d % 1000 = 0 then natToDigitBytes (d / 1000) ++ [117]
    else natToDigitBytes d ++ [110]

-- ====================
-- Routing: HostRouter (src/routing/mod.rs, Phase 1)
-- ====================

/-- The key marker used by `HostRouter::add_route` for `prefix.*` host
patterns. -/
def markerStr : Str := "__prefix__:".data

/-- Host normalisation in `HostRouter::get_candidates`: lowercase, then
drop everything from the first `:` (port). -/
def hostOnlyOf (host : Str) : Str := (lowerStr host).takeWhile (fun c => c ≠ ':')

/-- Append `idx` to the index list of the first entry whose key is `k`
(model of `iter_mut().find(..).push(..)` on a `Vec` of entries). -/
def pushFirstW : List (Str × List Nat) → Str → Nat → List (Str × List Nat)
  | [], _, _ => []
  | e :: rest, k, idx =>
    if e.1 = k then (e.1, e.2 ++ [idx]) :: rest else e :: pushFirstW rest k idx

/-- `HashMap::entry(k).or_insert_with(Vec::new).push(idx)`: append `idx`
to the entry at `k`, creating it if absent (keys stay unique). -/
def bumpEntry (m : List (Str × List Nat)) (k : Str) (idx : Nat) : List (Str × List Nat) :=
  if m.any (fun e => e.1 = k) then pushFirstW m k idx else m ++ [(k, [idx])]

/-- Host-based route grouping (`HostRouter`): exact map, wildcard entry
list (both `*.suffix` keys and `__prefix__:`-marked `prefix.*` keys), and
the any-host list. -/
structure HostRouter where
  exact : List (Str × List Nat)
  wildcard : List (Str × List Nat)
  any_host : List Nat
  deriving DecidableEq, Repr

/-- `HostRouter::new`. -/
def HostRouter.new : HostRouter := ⟨[], [], []⟩

/-- `pattern.strip_prefix("*.")`. -/
def stripStarDot : Str → Option Str
  | '*' :: '.' :: suffix => some suffix
  | _ => none

/-- `HostRouter::add_route`.  Note the source's asymmetry for `*.suffix`
patterns: the existing-entry search compares stored keys against the raw
(not lowercased) suffix, while a newly created entry stores the lowercased
suffix. -/
def HostRouter.add_route (r : HostRouter) (route_idx : Nat) (host_condition : Option Str) :
    HostRouter :=
  match host_condition with
  | none => { r with any_host := r.any_host ++ [route_idx] }
  | some pattern =>
    match stripStarDot pattern with
    | some suffix =>
      if r.wildcard.any (fun e => e.1 = suffix) then
        { r with wildcard := pushFirstW r.wildcard suffix route_idx }
      else
        { r with wildcard := r.wildcard ++ [(lowerStr suffix, [route_idx])] }
    | none =>
      if ['.', '*'].isSuffixOf pattern then
        if r.wildcard.any (fun e => e.1 = markerStr ++ lowerStr (pattern.dropLast.dropLast)) then
          { r with wildcard :=
              pushFirstW r.wildcard (markerStr ++ lowerStr (pattern.dropLast.dropLast)) route_idx }
        else
          { r with wildcard :=
              r.wildcard ++ [(markerStr ++ lowerStr (pattern.dropLast.dropLast), [route_idx])] }
      else
        { r with exact := bumpEntry r.exact (lowerStr pattern) route_idx }

/-- The per-entry wildcard test applied by `HostRouter::get_candidates` to
a stored wildcard key and the normalised host: `__prefix__:`-marked keys
require the host to start with the prefix followed by a dot; plain keys
require the host to end with `.key` with a non-empty subdomain label that
contains no further dot. -/
def wEntryMatches (key hostOnly : Str) : Bool :=
  if markerStr.isPrefixOf key then
    let pre := key.drop markerStr.length
    pre.isPrefixOf hostOnly && decide (pre.length < hostOnly.length) &&
      ((hostOnly.drop pre.length).head? == some '.')
  else
    key.isSuffixOf hostOnly &&
      (decide (0 < hostOnly.length - key.length) &&
        ((hostOnly.drop (hostOnly.length - key.length - 1)).head? == some '.') &&
        !((hostOnly.take (hostOnly.length - key.length - 1)).contains '.'))

/-- `HostRouter::get_candidates`: exact-match indices, then every wildcard
entry whose key matches, then the any-host indices. -/
def HostRouter.get_candidates (r : HostRouter) (host : Str) : List Nat :=
  let hostOnly := hostOnlyOf host
  let c1 := match r.exact.find? (fun e => decide (e.1 = hostOnly)) with
    | some e => e.2
    | none => []
  let c2 := r.wildcard.foldl
    (fun acc e => if wEntryMatches e.1 hostOnly then acc ++ e.2 else acc) c1
  c2 ++ r.any_host

/-- Build a `HostRouter` from the host conditions of a route list, adding
route `i + k` for the `k`-th condition (the callers add routes in
operator-declared order with consecutive indices). -/
def buildHostRouterAux (r : HostRouter) (i : Nat) : List (Option Str) → HostRouter
  | [] => r
  | c :: rest => buildHostRouterAux (r.add_route i c) (i + 1) rest

/-- Host router built from a route-condition list in declaration order. -/
def buildHostRouter (conds : List (Option Str)) : HostRouter :=
  buildHostRouterAux HostRouter.new 0 conds

/-- Route index `j` occurs somewhere in the tables of `r`. -/
def idxInHostRouter (j : Nat) (r : HostRouter) : Prop :=
  (∃ e ∈ r.exact, j ∈ e.2) ∨ (∃ e ∈ r.wildcard, j ∈ e.2) ∨ j ∈ r.any_host

/-- Every route index occurring in `r` is below `i` (the build invariant:
indices are added in increasing order). -/
def hostRouterIdxLt (r : HostRouter) (i : Nat) : Prop :=
  ∀ j, idxInHostRouter j r → j < i

/-- Wildcard-table membership: some entry of `m` both matches the
normalised host and lists `j`. -/
def wMemP (m : List (Str × List Nat)) (ho : Str) (j : Nat) : Prop :=
  ∃ e ∈ m, wEntryMatches e.1 ho = true ∧ j ∈ e.2

/-- Exact-table membership: the entry found for key `key` lists `j`. -/
def eMemP (m : List (Str × List Nat)) (key : Str) (j : Nat) : Prop :=
  ∃ e, m.find? (fun e => decide (e.1 = key)) = some e ∧ j ∈ e.2

-- ====================
-- Routing: PathRouter (src/routing/mod.rs, Phase 2)
-- ====================

/-- The matchit catch-all segment `"/{*rest}"` appended by
`convert_pattern` (built from character codes to keep the braces out of
string literals). -/
def catchAllSeg : Str := ['/', Char.ofNat 123, '*', 'r', 'e', 's', 't', Char.ofNat 125]

/-- `PathRouter::convert_pattern`: a trailing `/*` becomes the matchit
catch-all segment; other patterns are kept verbatim. -/
def convert_pattern (pattern : Str) : Str :=
  if ['/', '*'].isSuffixOf pattern then pattern.dropLast.dropLast ++ catchAllSeg
  else pattern

/-- The catch-all prefix of a stored radix pattern, when it has one. -/
def caPre? (pat : Str) : Option Str :=
  if catchAllSeg.isSuffixOf pat then some (pat.take (pat.length - 8)) else none

/-- Modelled from the spec: the radix tree of the path router is the
external `matchit` crate, which is not part of this repository ("a radix
tree keyed by path pattern; trailing `/*` becomes a catch-all segment").
For the pattern shapes this repository inserts — literal strings and
trailing `{*rest}` catch-alls — a stored pattern matches a request path iff
it is a literal equal to the path, or a catch-all `prefix/{*rest}` and the
path extends `prefix/` by at least one character. -/
def radixPatMatches (pat path : Str) : Bool :=
  match caPre? pat with
  | some pre => (pre ++ ['/']).isPrefixOf path && decide (pre.length + 1 < path.length)
  | none => pat == path

/-- Modelled from the spec: position of the tree entry that `matchit`'s
`at`/`at_mut` resolves for a path — a literal entry equal to the path takes
priority over catch-alls, and among matching catch-alls the one with the
longest prefix wins. -/
def radixSelectIdx (t : List (Str × List Nat)) (path : Str) : Option Nat :=
  match t.findIdx? (fun e => decide (caPre? e.1 = none) && (e.1 == path)) with
  | some i => some i
  | none =>
    (t.enum.foldl (fun acc p =>
      if (caPre? p.2.1).isSome && radixPatMatches p.2.1 path then
        match acc with
        | none => some p
        | some b => if b.2.1.length < p.2.1.length then some p else acc
      else acc) none).map (fun p => p.1)

/-- Index list held by the tree entry that `matchit::Router::at` resolves
for `path`, if any. -/
def radixAt (t : List (Str × List Nat)) (path : Str) : Option (List Nat) :=
  (radixSelectIdx t path).bind (fun i => (t.get? i).map (fun e => e.2))

/-- Append `idx` to the index list of the entry at position `pos`. -/
def pushAtPos : List (Str × List Nat) → Nat → Nat → List (Str × List Nat)
  | [], _, _ => []
  | e :: rest, 0, idx => (e.1, e.2 ++ [idx]) :: rest
  | e :: rest, n + 1, idx => e :: pushAtPos rest n idx

/-- Path-based route matching (`PathRouter`): the radix tree (modelled as
the list of inserted entries), the any-path list, and the original pattern
list used for fallback matching. -/
structure PathRouter where
  router : List (Str × List Nat)
  any_path : List Nat
  patterns : List (Str × Nat)
  deriving DecidableEq, Repr

/-- `PathRouter::new`. -/
def PathRouter.new : PathRouter := ⟨[], [], []⟩

/-- `PathRouter::add_route`: record the original pattern, convert it, then
probe the tree with `at_mut(&matchit_pattern)` — a PATH lookup of the
pattern string — pushing the index into whatever entry that lookup
resolves, and inserting a fresh entry only when the lookup misses (the
source ignores insert failures; for the pattern shapes modelled here the
insert succeeds). -/
def PathRouter.add_route (r : PathRouter) (route_idx : Nat) (path_condition : Option Str) :
    PathRouter :=
  match path_condition with
  | none => { r with any_path := r.any_path ++ [route_idx] }
  | some pattern =>
    let r1 : PathRouter := { r with patterns := r.patterns ++ [(pattern, route_idx)] }
    match radixSelectIdx r1.router (convert_pattern pattern) with
    | some pos => { r1 with router := pushAtPos r1.router pos route_idx }
    | none => { r1 with router := r1.router ++ [(convert_pattern pattern, [route_idx])] }

/-- `PathRouter::matches_pattern`: exact equality; `prefix/*` requires the
path to start with `prefix` followed by end or `/`; otherwise plain prefix
followed by end or `/`. -/
def matches_pattern (pattern path : Str) : Bool :=
  if pattern == path then true
  else if ['/', '*'].isSuffixOf pattern then
    (pattern.dropLast.dropLast).isPrefixOf path &&
      (decide (path.length = (pattern.dropLast.dropLast).length) ||
        ((path.drop (pattern.dropLast.dropLast).length).head? == some '/'))
  else
    pattern.isPrefixOf path &&
      (decide (path.drop pattern.length = []) ||
        ((path.drop pattern.length).head? == some '/'))

/-- `PathRouter::get_candidates`: radix-tree result, then every fallback
pattern that matches and is not yet listed, then the any-path indices. -/
def PathRouter.get_candidates (r : PathRouter) (path : Str) : List Nat :=
  let c1 := match radixAt r.router path with
    | some v => v
    | none => []
  let c2 := r.patterns.foldl (fun acc p =>
    if !acc.contains p.2 && matches_pattern p.1 path then acc ++ [p.2] else acc) c1
  c2 ++ r.any_path

/-- Path router built from a route-condition list in declaration order. -/
def buildPathRouterAux (r : PathRouter) (i : Nat) : List (Option Str) → PathRouter
  | [] => r
  | c :: rest => buildPathRouterAux (r.add_route i c) (i + 1) rest

/-- Path router built from a route-condition list in declaration order. -/
def buildPathRouter (conds : List (Option Str)) : PathRouter :=
  buildPathRouterAux PathRouter.new 0 conds

-- ====================
-- Routing: CidrMatcher (src/routing/mod.rs, Phase 3)
-- ====================

/-- An IP address: a v4 address as its `u32` value or a v6 address as its
`u128` value (big-endian byte interpretation, as in the source). -/
inductive IpAddr where
  | v4 (a : Nat)
  | v6 (a : Nat)
  deriving DecidableEq, Repr

/-- A parsed `source_ip` condition entry.  `CidrMatcher::add_cidr` parses
the configuration string with the Rust standard library (`split_once('/')`
plus `IpAddr`/`u8` parsing, with malformed entries silently dropped); the
conditions are modelled post-parse, with `prefix_len ≤ 32` resp. `≤ 128`. -/
inductive CidrSpec where
  | exactIp (ip : IpAddr)
  | range (ip : IpAddr) (prefix_len : Nat)
  deriving DecidableEq, Repr

/-- The v4 network mask `!((1u32 << (32 - prefix_len)) - 1)` (all-ones of
the top `prefix_len` bits; 0 when `prefix_len = 0`). -/
def v4mask (prefix_len : Nat) : Nat :=
  if prefix_len = 0 then 0 else 4294967296 - 2 ^ (32 - prefix_len)

/-- The v6 network mask, as `v4mask` with 128 bits. -/
def v6mask (prefix_len : Nat) : Nat :=
  if prefix_len = 0 then 0
  else 340282366920938463463374607431768211456 - 2 ^ (128 - prefix_len)

/-- Append `idx` (if not already present) to the index list of the first
range entry with the given network and prefix length. -/
def bumpRange : List (Nat × Nat × List Nat) → Nat → Nat → Nat → List (Nat × Nat × List Nat)
  | [], _, _, _ => []
  | e :: rest, n, p, idx =>
    if e.1 = n ∧ e.2.1 = p then
      if e.2.2.contains idx then e :: rest else (e.1, e.2.1, e.2.2 ++ [idx]) :: rest
    else e :: bumpRange rest n p idx

/-- Append `idx` to the index list of the first entry keyed by `ip`. -/
def pushFirstIp : List (IpAddr × List Nat) → IpAddr → Nat → List (IpAddr × List Nat)
  | [], _, _ => []
  | e :: rest, ip, idx =>
    if e.1 = ip then (e.1, e.2 ++ [idx]) :: rest else e :: pushFirstIp rest ip idx

/-- CIDR range matcher (`CidrMatcher`): v4 and v6 range tables, the
exact-IP map and the any-IP list. -/
structure CidrMatcher where
  v4_ranges : List (Nat × Nat × List Nat)
  v6_ranges : List (Nat × Nat × List Nat)
  exact_ips : List (IpAddr × List Nat)
  any_ip : List Nat
  deriving DecidableEq, Repr

/-- `CidrMatcher::new`. -/
def CidrMatcher.new : CidrMatcher := ⟨[], [], [], []⟩

/-- `CidrMatcher::add_cidr` on a parsed condition: ranges share an entry
per `(network, prefix_len)` with per-entry index dedup; bare addresses go
into the exact-IP map. -/
def CidrMatcher.add_cidr (m : CidrMatcher) (route_idx : Nat) (c : CidrSpec) : CidrMatcher :=
  match c with
  | .range (.v4 n) plen =>
    if m.v4_ranges.any (fun e => e.1 = n ∧ e.2.1 = plen) then
      { m with v4_ranges := bumpRange m.v4_ranges n plen route_idx }
    else
      { m with v4_ranges := m.v4_ranges ++ [(n, plen, [route_idx])] }
  | .range (.v6 n) plen =>
    if m.v6_ranges.any (fun e => e.1 = n ∧ e.2.1 = plen) then
      { m with v6_ranges := bumpRange m.v6_ranges n plen route_idx }
    else
      { m with v6_ranges := m.v6_ranges ++ [(n, plen, [route_idx])] }
  | .exactIp ip =>
    if m.exact_ips.any (fun e => e.1 = ip) then
      { m with exact_ips := pushFirstIp m.exact_ips ip route_idx }
    else
      { m with exact_ips := m.exact_ips ++ [(ip, [route_idx])] }

/-- `CidrMatcher::add_route`. -/
def CidrMatcher.add_route (m : CidrMatcher) (route_idx : Nat)
    (ip_ranges : Option (List CidrSpec)) : CidrMatcher :=
  match ip_ranges with
  | none => { m with any_ip := m.any_ip ++ [route_idx] }
  | some ranges => ranges.foldl (fun m c => m.add_cidr route_idx c) m

/-- Insert into a list sorted by descending prefix length, after all
entries of greater-or-equal prefix length (keeps the sort stable, like
Rust's `sort_by`). -/
def insDescRange (x : Nat × Nat × List Nat) : List (Nat × Nat × List Nat) →
    List (Nat × Nat × List Nat)
  | [] => [x]
  | y :: rest => if y.2.1 < x.2.1 then x :: y :: rest else y :: insDescRange x rest

/-- `CidrMatcher::optimize`: stable sort of both range tables by
descending prefix length. -/
def CidrMatcher.optimize (m : CidrMatcher) : CidrMatcher :=
  { m with
    v4_ranges := m.v4_ranges.foldl (fun acc x => insDescRange x acc) []
    v6_ranges := m.v6_ranges.foldl (fun acc x => insDescRange x acc) [] }

/-- `CidrMatcher::get_candidates`: exact-IP indices, then the indices of
every matching CIDR range (skipping indices already collected), then the
any-IP indices. -/
def CidrMatcher.get_candidates (m : CidrMatcher) (ip : IpAddr) : List Nat :=
  let c1 := match m.exact_ips.find? (fun e => decide (e.1 = ip)) with
    | some e => e.2
    | none => []
  let c2 := match ip with
    | .v4 a =>
      m.v4_ranges.foldl (fun acc e =>
        if Nat.land a (v4mask e.2.1) = Nat.land e.1 (v4mask e.2.1) then
          e.2.2.foldl (fun acc2 idx => if acc2.contains idx then acc2 else acc2 ++ [idx]) acc
        else acc) c1
    | .v6 a =>
      m.v6_ranges.foldl (fun acc e =>
        if Nat.land a (v6mask e.2.1) = Nat.land e.1 (v6mask e.2.1) then
          e.2.2.foldl (fun acc2 idx => if acc2.contains idx then acc2 else acc2 ++ [idx]) acc
        else acc) c1
  c2 ++ m.any_ip

/-- `CidrMatcher::has_conditions`. -/
def CidrMatcher.has_conditions (m : CidrMatcher) : Bool :=
  decide (m.v4_ranges ≠ []) || decide (m.v6_ranges ≠ []) || decide (m.exact_ips ≠ [])

-- ====================
-- Routing: OptimizedRouter and the lookup drivers (src/routing/mod.rs; spec §4.1)
-- ====================

/-- Insert into an ascending-sorted `List Nat`. -/
def insertNatLe (x : Nat) : List Nat → List Nat
  | [] => [x]
  | y :: rest => if x ≤ y then x :: y :: rest else y :: insertNatLe x rest

/-- Ascending sort (`sort_unstable` on route indices). -/
def sortNat (l : List Nat) : List Nat := l.foldr insertNatLe []

/-- Remove adjacent duplicates (`Vec::dedup`). -/
def dedupAdj : List Nat → List Nat
  | [] => []
  | [x] => [x]
  | x :: y :: rest => if x = y then dedupAdj (y :: rest) else x :: dedupAdj (y :: rest)

/-- The combined optimized router (`OptimizedRouter`); the LRU result
cache is carried by the lookup driver below. -/
structure OptimizedRouter where
  host_router : HostRouter
  path_router : PathRouter
  cidr_matcher : CidrMatcher
  route_count : Nat
  deriving DecidableEq, Repr

/-- `OptimizedRouter::with_cache_capacity` (the index state of). -/
def OptimizedRouter.new : OptimizedRouter := ⟨HostRouter.new, PathRouter.new, CidrMatcher.new, 0⟩

/-- `OptimizedRouter::add_route`. -/
def OptimizedRouter.add_route (r : OptimizedRouter) (route_idx : Nat)
    (host path : Option Str) (source_ip : Option (List CidrSpec)) : OptimizedRouter :=
  { host_router := r.host_router.add_route route_idx host
    path_router := r.path_router.add_route route_idx path
    cidr_matcher := r.cidr_matcher.add_route route_idx source_ip
    route_count := max r.route_count (route_idx + 1) }

/-- `OptimizedRouter::finalize`. -/
def OptimizedRouter.finalize (r : OptimizedRouter) : OptimizedRouter :=
  { r with cidr_matcher := r.cidr_matcher.optimize }

/-- `OptimizedRouter::get_candidates`: intersect the host candidates with
the path and source-IP candidate sets (all routes when no route constrains
the source IP), sort ascending by original index, dedup. -/
def OptimizedRouter.get_candidates (r : OptimizedRouter) (host path : Str)
    (source_ip : IpAddr) : List Nat :=
  let host_candidates := r.host_router.get_candidates host
  let path_candidates := r.path_router.get_candidates path
  let ip_candidates := if r.cidr_matcher.has_conditions then
      r.cidr_matcher.get_candidates source_ip
    else
      List.range r.route_count
  dedupAdj (sortNat (host_candidates.filter
    (fun i => path_candidates.contains i && ip_candidates.contains i)))

/-- A route's declared conditions (the route-table entry the router is
built from; spec §3 "Route condition"). -/
structure Route where
  host : Option Str
  path : Option Str
  source_ip : Option (List CidrSpec)
  methods : Option (List Str)
  headers : List (Str × Str)
  query : List (Str × Str)
  deriving Repr

/-- A request fingerprint (spec §3): host, path, method, header map,
query map, source IP. -/
structure Request where
  host : Str
  path : Str
  method : Str
  headers : List (Str × Str)
  query : List (Str × Str)
  source_ip : IpAddr
  deriving Repr

/-- Build the optimized router from the route table in declaration order
(per spec §4.7: "the host/path/CIDR indices built from those routes"). -/
def buildOptimizedRouterAux (r : OptimizedRouter) (i : Nat) : List Route → OptimizedRouter
  | [] => r
  | rt :: rest => buildOptimizedRouterAux (r.add_route i rt.host rt.path rt.source_ip) (i + 1) rest

/-- The optimized router of a route table, finalized. -/
def buildOptimizedRouter (routes : List Route) : OptimizedRouter :=
  (buildOptimizedRouterAux OptimizedRouter.new 0 routes).finalize

/-- Modelled from the spec (§4.1 lookup step 4, not under src/): verify
the conditions the indices do not decide — method membership, header
key/value equality (case-insensitive name, exact value), query equality. -/
def verifyRemaining (rt : Route) (req : Request) : Bool :=
  (match rt.methods with
   | none => true
   | some ms => ms.contains req.method) &&
  rt.headers.all (fun h => req.headers.any
    (fun h2 => decide (lowerStr h2.1 = lowerStr h.1) && decide (h2.2 = h.2))) &&
  rt.query.all (fun q => req.query.any
    (fun q2 => decide (q2.1 = q.1) && decide (q2.2 = q.2)))

/-- The route cache key (`RouteCacheKey`); the source keys on the string
rendering of the source IP, which is injective on addresses, so the
address itself is kept. -/
structure RouteCacheKey where
  host : Str
  path : Str
  method : Str
  source_ip : IpAddr
  deriving DecidableEq, Repr

/-- Modelled from the spec (§4.1 lookup steps 1–5, not under src/): probe
the cache, compute the candidate intersection, verify the remaining
conditions per candidate in order, return the first full match and insert
the result (including `None`) into the cache. -/
def find_route_cached (routes : List Route) (cache : List (RouteCacheKey × Option Nat))
    (req : Request) : Option Nat × List (RouteCacheKey × Option Nat) :=
  let key : RouteCacheKey := ⟨req.host, req.path, req.method, req.source_ip⟩
  match cache.find? (fun e => decide (e.1 = key)) with
  | some e => (e.2, cache)
  | none =>
    let cands := (buildOptimizedRouter routes).get_candidates req.host req.path req.source_ip
    let res := cands.find? (fun i =>
      match routes.get? i with
      | some rt => verifyRemaining rt req
      | none => false)
    (res, cache ++ [(key, res)])

/-- Modelled from the spec (§4.1 host semantics): a host condition matches
when the lowercased, port-stripped host equals the lowercased exact
pattern, or matches a `*.suffix` pattern with a single non-empty label
before the suffix, or a `prefix.*` pattern followed by a dot. -/
def specHostMatches (cond : Option Str) (host : Str) : Bool :=
  match cond with
  | none => true
  | some pat =>
    match stripStarDot pat with
    | some suf =>
      (lowerStr suf).isSuffixOf (hostOnlyOf host) &&
        (decide (0 < (hostOnlyOf host).length - (lowerStr suf).length) &&
          (((hostOnlyOf host).drop
            ((hostOnlyOf host).length - (lowerStr suf).length - 1)).head? == some '.') &&
          !(((hostOnlyOf host).take
            ((hostOnlyOf host).length - (lowerStr suf).length - 1)).contains '.'))
    | none =>
      if ['.', '*'].isSuffixOf pat then
        (lowerStr (pat.dropLast.dropLast)).isPrefixOf (hostOnlyOf host) &&
          decide ((lowerStr (pat.dropLast.dropLast)).length < (hostOnlyOf host).length) &&
          (((hostOnlyOf host).drop (lowerStr (pat.dropLast.dropLast)).length).head? == some '.')
      else decide (hostOnlyOf host = lowerStr pat)

/-- Modelled from the spec (§4.1 path semantics): exact equality;
`prefix/*` ⇒ path starts with `prefix` followed by end or `/`; plain
prefix ⇒ path starts with the pattern and, if longer, the next char is
`/`. -/
def specPathMatches (cond : Option Str) (path : Str) : Bool :=
  match cond with
  | none => true
  | some pat =>
    if pat == path then true
    else if ['/', '*'].isSuffixOf pat then
      (pat.dropLast.dropLast).isPrefixOf path &&
        (decide (path.length = (pat.dropLast.dropLast).length) ||
          ((path.drop (pat.dropLast.dropLast).length).head? == some '/'))
    else
      pat.isPrefixOf path &&
        (decide (path.drop pat.length = []) ||
          ((path.drop pat.length).head? == some '/'))

/-- Modelled from the spec (§4.1 CIDR semantics): the client IP masked by
the range's prefix mask equals the masked network; bare addresses match
exactly. -/
def specIpMatches (cond : Option (List CidrSpec)) (ip : IpAddr) : Bool :=
  match cond with
  | none => true
  | some specs => specs.any (fun c =>
      match c, ip with
      | .exactIp ip', _ => decide (ip' = ip)
      | .range (.v4 n) plen, .v4 a =>
        decide (Nat.land a (v4mask plen) = Nat.land n (v4mask plen))
      | .range (.v6 n) plen, .v6 a =>
        decide (Nat.land a (v6mask plen) = Nat.land n (v6mask plen))
      | _, _ => false)

/-- Modelled from the spec (§4.1 contract): route matching is a
conjunction over the declared dimensions; an absent condition is vacuously
true. -/
def routeMatchesSpec (rt : Route) (req : Request) : Bool :=
  specHostMatches rt.host req.host && specPathMatches rt.path req.path &&
    specIpMatches rt.source_ip req.source_ip && verifyRemaining rt req

/-- Modelled from the spec (universal invariant 1): the naive linear scan
over the routes in operator-declared order, returning the first route all
of whose declared conditions hold. -/
def naive_find_route (routes : List Route) (req : Request) : Option Nat :=
  List.findIdx? (fun rt => routeMatchesSpec rt req) routes

/-- The two-route table of the C1 divergence: route 0 is
`{host: a.com, path: /a/*}`, route 1 is `{host: b.com, path: /a/b}`. -/
def routesC1 : List Route :=
  [⟨some ("a.com".data), some ("/a/*".data), none, none, [], []⟩,
   ⟨some ("b.com".data), some ("/a/b".data), none, none, [], []⟩]

/-- The request of the C1 divergence: `GET b.com /a/zzz` from
127.0.0.1. -/
def reqC1 : Request :=
  ⟨"b.com".data, "/a/zzz".data, "GET".data, [], [], .v4 2130706433⟩

-- ====================
-- WASM capabilities and proxy_http_call (src/wasm/capabilities.rs, src/wasm/host/http_call.rs)
-- ====================

/-- Proxy-Wasm host-function status codes (src/wasm/constants.rs). -/
def PROXY_RESULT_OK : Int := 0

def PROXY_RESULT_BAD_ARGUMENT : Int := 2

def PROXY_RESULT_INVALID_MEMORY_ACCESS : Int := 6

def PROXY_RESULT_INTERNAL_FAILURE : Int := 10

def PROXY_RESULT_NOT_ALLOWED : Int := 13

/-- Per-module capability settings (`ModuleCapabilities`), all fields of
the source structure. -/
structure ModuleCapabilities where
  allow_logging : Bool
  allow_metrics : Bool
  allow_shared_data : Bool
  allow_request_headers_read : Bool
  allow_request_headers_write : Bool
  allow_request_body_read : Bool
  allow_request_body_write : Bool
  allow_response_headers_read : Bool
  allow_response_headers_write : Bool
  allow_response_body_read : Bool
  allow_response_body_write : Bool
  allow_send_local_response : Bool
  allow_http_calls : Bool
  allowed_upstreams : List Str
  max_http_calls : Nat
  allowed_properties : List Str
  max_shared_data_size : Nat
  max_execution_time_ms : Nat
  deriving DecidableEq, Repr

/-- `ModuleCapabilities::is_upstream_allowed`: false without
`allow_http_calls`; an empty whitelist permits every upstream; otherwise
membership in `allowed_upstreams`. -/
def ModuleCapabilities.is_upstream_allowed (c : ModuleCapabilities) (upstream : Str) : Bool :=
  if c.allow_http_calls = false then false
  else if c.allowed_upstreams = [] then true
  else c.allowed_upstreams.any (fun u => u = upstream)

/-- A pending HTTP call stored by `proxy_http_call` (`PendingHttpCall`). -/
structure PendingHttpCall where
  token : Nat
  upstream : Str
  timeout_ms : Nat
  headers : List (Str × Str)
  body : List Nat
  trailers : List (Str × Str)
  deriving DecidableEq, Repr

/-- The part of the per-request WASM context state (`HttpContext`) that
`proxy_http_call` reads and writes: the capability set, the pending-call
table (`HashMap<u32, PendingHttpCall>`, modelled as an association list)
and the next token counter. -/
structure HttpCtxState where
  capabilities : ModuleCapabilities
  pending_http_calls : List (Nat × PendingHttpCall)
  next_http_call_token : Nat
  deriving DecidableEq, Repr

/-- `HashMap::insert`: replace the value at an existing key or append. -/
def insertAssoc (m : List (Nat × PendingHttpCall)) (k : Nat) (v : PendingHttpCall) :
    List (Nat × PendingHttpCall) :=
  if m.any (fun e => e.1 = k) then
    m.map (fun e => if e.1 = k then (k, v) else e)
  else m ++ [(k, v)]

/-- The `proxy_http_call` host function.  WASM linear-memory reads are
abstracted as inputs: `upstreamRead` is the result of `read_string` on the
upstream name (`none` = out of bounds or invalid UTF-8), and
`headersRead`/`bodyRead`/`trailersRead` are the results of the three data
reads (`none` = memory out of bounds; a `deserialize_headers` failure is
already folded to `[]` by `unwrap_or_default` in the source, and a size
`≤ 0` yields `some []`).  `tokenWriteOk` tells whether the 4-byte token
write-back stays in bounds.  Returns the Proxy-Wasm status code and the
updated context state. -/
def proxy_http_call (st : HttpCtxState) (upstreamRead : Option Str)
    (headersRead : Option (List (Str × Str))) (bodyRead : Option (List Nat))
    (trailersRead : Option (List (Str × Str))) (timeout_ms : Nat)
    (tokenWriteOk : Bool) : Int × HttpCtxState :=
  if st.capabilities.allow_http_calls = false then
    (PROXY_RESULT_NOT_ALLOWED, st)
  else if st.capabilities.max_http_calls ≤ st.pending_http_calls.length then
    (PROXY_RESULT_INTERNAL_FAILURE, st)
  else
    match upstreamRead with
    | none => (PROXY_RESULT_INVALID_MEMORY_ACCESS, st)
    | some upstream =>
      if st.capabilities.is_upstream_allowed upstream = false then
        (PROXY_RESULT_BAD_ARGUMENT, st)
      else
        match headersRead, bodyRead, trailersRead with
        | some hs, some bd, some ts =>
          let token := st.next_http_call_token
          let st' : HttpCtxState :=
            { capabilities := st.capabilities
              pending_http_calls :=
                insertAssoc st.pending_http_calls token ⟨token, upstream, timeout_ms, hs, bd, ts⟩
              next_http_call_token := (token + 1) % 4294967296 }
          if tokenWriteOk then (PROXY_RESULT_OK, st')
          else (PROXY_RESULT_INVALID_MEMORY_ACCESS, st')
        | _, _, _ => (PROXY_RESULT_INVALID_MEMORY_ACCESS, st)

/-- A capability set with every flag off and the source defaults for the
quantitative limits (`ModuleCapabilities::default`). -/
def capsAllFalse : ModuleCapabilities :=
  ⟨false, false, false, false, false, false, false, false, false, false, false,
    false, false, [], 10, [], 1048576, 100⟩

/-- A capability set granting `allow_http_calls` with upstream whitelist
`["a"]`. -/
def capsWhitelistA : ModuleCapabilities :=
  { capsAllFalse with allow_http_calls := true, allowed_upstreams := [['a']] }

-- ====================
-- HTTP/2 client stream-id allocation (src/http2/client.rs)
-- ====================

/-- The stream-id state of `H2cClient`: the `next_stream_id : u32` field,
initialised to 1. -/
structure H2cClient where
  next_stream_id : Nat
  deriving DecidableEq, Repr

/-- A fresh client connection (`H2cClient::new` sets `next_stream_id: 1`). -/
def H2cClient.new : H2cClient := ⟨1⟩

/-- The stream-id allocation performed at the top of
`H2cClient::send_request` (and `send_grpc_request`):
`let stream_id = self.next_stream_id; self.next_stream_id += 2;` with `u32`
wrapping arithmetic (release semantics).  There is no bound check. -/
def H2cClient.send_request_alloc (c : H2cClient) : Nat × H2cClient :=
  (c.next_stream_id, ⟨(c.next_stream_id + 2) % 4294967296⟩)

/-- Client state after `n` requests have been started. -/
def h2StateAfter : Nat → H2cClient
  | 0 => H2cClient.new
  | n + 1 => ((h2StateAfter n).send_request_alloc).2

/-- Stream id assigned to the `n`-th request (counting from 0). -/
def h2AllocatedId (n : Nat) : Nat := ((h2StateAfter n).send_request_alloc).1

-- ====================
-- Theorems
-- ====================

theorem h2StateAfter_eq (n : Nat) : h2StateAfter n = ⟨(1 + 2 * n) % 4294967296⟩ := by
  induction n with
  | zero => rfl
  | succ n ih =>
    simp only [h2StateAfter, ih, H2cClient.send_request_alloc]
    congr 1
    omega

/-- C6: a call of `proxy_http_call` by a module whose capability set has
`allow_http_calls = false` returns `PROXY_RESULT_NOT_ALLOWED` with the
context state — in particular the pending-HTTP-call table and the token
counter — unchanged. -/
theorem proxy_http_call_denied_without_capability (st : HttpCtxState)
    (u : Option Str) (hs : Option (List (Str × Str))) (bd : Option (List Nat))
    (ts : Option (List (Str × Str))) (tm : Nat) (tw : Bool)
    (h : st.capabilities.allow_http_calls = false) :
    proxy_http_call st u hs bd ts tm tw = (PROXY_RESULT_NOT_ALLOWED, st) := by
  simp [proxy_http_call, h]

theorem proxy_http_call_denied_without_capability_witness :
    proxy_http_call ⟨capsAllFalse, [], 0⟩ (some ['a']) (some []) (some []) (some []) 5 true =
      (PROXY_RESULT_NOT_ALLOWED, ⟨capsAllFalse, [], 0⟩) :=
  proxy_http_call_denied_without_capability ⟨capsAllFalse, [], 0⟩ (some ['a']) (some [])
    (some []) (some []) 5 true (by decide)

/-- C7 counterexample: with `allow_http_calls` granted, an empty pending
table, and whitelist `["a"]`, calling an upstream `"b"` outside the
whitelist returns `PROXY_RESULT_BAD_ARGUMENT` (2), not
`PROXY_RESULT_NOT_ALLOWED` (13) as the claim states. -/
theorem proxy_http_call_upstream_denial_is_not_not_allowed :
    (proxy_http_call ⟨capsWhitelistA, [], 0⟩ (some ['b']) (some []) (some []) (some []) 5
        true).1 = PROXY_RESULT_BAD_ARGUMENT ∧
    PROXY_RESULT_BAD_ARGUMENT ≠ PROXY_RESULT_NOT_ALLOWED := by
  decide

/-- C7 amended: a `proxy_http_call` naming an upstream not permitted by the
module's whitelist (consulted even when `allow_http_calls` is granted; an
empty list permits any upstream, which is folded into
`is_upstream_allowed`) returns `PROXY_RESULT_BAD_ARGUMENT` and leaves the
context state — in particular the pending-call table — unchanged. -/
theorem proxy_http_call_upstream_denied_returns_bad_argument (st : HttpCtxState)
    (u : Str) (hs : Option (List (Str × Str))) (bd : Option (List Nat))
    (ts : Option (List (Str × Str))) (tm : Nat) (tw : Bool)
    (h1 : st.capabilities.allow_http_calls = true)
    (h2 : st.pending_http_calls.length < st.capabilities.max_http_calls)
    (h3 : st.capabilities.is_upstream_allowed u = false) :
    proxy_http_call st (some u) hs bd ts tm tw = (PROXY_RESULT_BAD_ARGUMENT, st) := by
  simp [proxy_http_call, h1, h3, Nat.not_le.mpr h2]

theorem proxy_http_call_upstream_denied_returns_bad_argument_witness :
    proxy_http_call ⟨capsWhitelistA, [], 0⟩ (some ['b']) (some []) (some []) (some []) 5 true =
      (PROXY_RESULT_BAD_ARGUMENT, ⟨capsWhitelistA, [], 0⟩) :=
  proxy_http_call_upstream_denied_returns_bad_argument ⟨capsWhitelistA, [], 0⟩ ['b'] (some [])
    (some []) (some []) 5 true (by decide) (by decide) (by decide)

/-- C8 counterexample: after 2^30 request starts the next stream id is
2^31 + 1, which exceeds 2^31 − 1, yet `send_request` does not reject the
start: it allocates the id 2^31 + 1 and advances the counter, with no error
path. -/
theorem h2_stream_id_not_rejected_past_limit :
    2147483647 < (h2StateAfter 1073741824).next_stream_id ∧
    ((h2StateAfter 1073741824).send_request_alloc).1 = 2147483649 ∧
    ((h2StateAfter 1073741824).send_request_alloc).2.next_stream_id = 2147483651 := by
  rw [h2StateAfter_eq]
  decide

/-- C8 amended: the stream id assigned to the `n`-th request (counting
from 0) is `(2n + 1) mod 2^32` — odd, starting at 1, increasing by 2 while
below 2^32 — and allocation is total: the client never rejects a request
start when the next id would exceed 2^31 − 1, it keeps allocating with
`u32` wrap-around. -/
theorem h2_stream_ids_odd_increasing_no_rejection (n : Nat) :
    h2AllocatedId n = (1 + 2 * n) % 4294967296 ∧ h2AllocatedId n % 2 = 1 := by
  have h := h2StateAfter_eq n
  constructor
  · simp [h2AllocatedId, h, H2cClient.send_request_alloc]
  · simp only [h2AllocatedId, h, H2cClient.send_request_alloc]
    omega

-- ====================
-- Theorems: C4 and C5
-- ====================

theorem u32be_recombine (n : Nat) (h : n < 4294967296) :
    ((n / 16777216 % 256 * 256 + n / 65536 % 256) * 256 + n / 256 % 256) * 256 + n % 256 = n := by
  omega

/-- C4: for every gRPC frame whose payload length is at most the configured
maximum message size and representable in a u32, decoding the encoding
yields exactly the frame back, consuming `5 + length` bytes; and encoding
is injective on the (compressed flag, payload) pair. -/
theorem grpc_frame_decode_encode_roundtrip_and_encode_injective :
    (∀ (f : GrpcFrame) (maxSize : Nat),
      f.data.length ≤ maxSize → f.data.length < 4294967296 →
      decode_grpc_frame_with_max_size f.encode maxSize = .ok (f, 5 + f.data.length)) ∧
    (∀ f g : GrpcFrame, f.encode = g.encode → f = g) := by
  constructor
  · intro f maxSize hle hlt
    obtain ⟨c, data⟩ := f
    replace hle : data.length ≤ maxSize := hle
    replace hlt : data.length < 4294967296 := hlt
    simp only [GrpcFrame.encode, u32be, List.cons_append, List.nil_append,
      decode_grpc_frame_with_max_size]
    rw [u32be_recombine data.length hlt]
    simp only [gt_iff_lt, List.length_cons, List.length_append]
    rw [if_neg (by omega), if_neg (by omega)]
    simp only [List.take_length, Except.ok.injEq, Prod.mk.injEq, GrpcFrame.mk.injEq,
      and_true, true_and]
    cases c <;> simp
  · intro f g h
    obtain ⟨cf, df⟩ := f
    obtain ⟨cg, dg⟩ := g
    simp only [GrpcFrame.encode, List.cons_append, List.cons.injEq] at h
    obtain ⟨hflag, htail⟩ := h
    have hlen : (u32be df.length).length = (u32be dg.length).length := by
      simp [u32be]
    have hdata := (List.append_inj htail hlen).2
    have hc : cf = cg := by
      cases cf <;> cases cg <;> simp_all
    simp [hc, hdata]

theorem grpc_frame_decode_encode_roundtrip_and_encode_injective_witness :
    decode_grpc_frame_with_max_size (GrpcFrame.encode ⟨true, [104, 105]⟩) 10 =
      .ok (⟨true, [104, 105]⟩, 7) :=
  grpc_frame_decode_encode_roundtrip_and_encode_injective.1 ⟨true, [104, 105]⟩ 10
    (by decide) (by decide)

/-- C5: a buffer whose 5-byte header declares a length greater than the
configured maximum is rejected with `MessageTooLarge` regardless of how
much of the payload is present (the payload is never inspected), and the
streaming decoder propagates the same error without yielding a frame and
without touching its buffer. -/
theorem grpc_decode_header_too_large_rejected (b0 b1 b2 b3 b4 : Nat)
    (rest : List Nat) (maxSize : Nat)
    (h : ((b1 * 256 + b2) * 256 + b3) * 256 + b4 > maxSize) :
    decode_grpc_frame_with_max_size (b0 :: b1 :: b2 :: b3 :: b4 :: rest) maxSize =
      .error (.messageTooLarge (((b1 * 256 + b2) * 256 + b3) * 256 + b4) maxSize) ∧
    GrpcFrameDecoder.decode_next ⟨b0 :: b1 :: b2 :: b3 :: b4 :: rest, maxSize⟩ =
      (.error (.messageTooLarge (((b1 * 256 + b2) * 256 + b3) * 256 + b4) maxSize),
        ⟨b0 :: b1 :: b2 :: b3 :: b4 :: rest, maxSize⟩) := by
  have hdec : decode_grpc_frame_with_max_size (b0 :: b1 :: b2 :: b3 :: b4 :: rest) maxSize =
      .error (.messageTooLarge (((b1 * 256 + b2) * 256 + b3) * 256 + b4) maxSize) := by
    simp only [decode_grpc_frame_with_max_size]
    rw [if_pos h]
  refine ⟨hdec, ?_⟩
  simp only [GrpcFrameDecoder.decode_next]
  rw [if_neg (by simp)]
  rw [hdec]


/-- C9: the duration 3600 s + 1 ns (an exact multiple of the nanosecond
unit) is formatted as `1H` because the hour branch ignores subsecond
nanoseconds, and parsing that back yields 3600 s — the round-trip silently
loses the nanosecond, contradicting `parse(format(d)) = d`. -/
theorem grpc_timeout_format_hour_branch_loses_subseconds :
    format_grpc_timeout 3600000000001 = [49, 72] ∧
    parse_grpc_timeout (format_grpc_timeout 3600000000001) = .ok (some 3600000000000) ∧
    (3600000000000 : Nat) ≠ 3600000000001 := by
  decide

/-- C10: on the byte sequence `0x35 0xC2 0xB5` (the valid UTF-8 string
`5µ`, whose final character is two bytes) `parse_grpc_timeout` reaches
`split_at(len - 1)` at a non-boundary index and panics instead of
returning `None`. -/
theorem grpc_timeout_parse_panics_on_multibyte_final_char :
    utf8Valid [53, 194, 181] = true ∧
    parse_grpc_timeout [53, 194, 181] = .panics := by
  decide

theorem grpc_decode_header_too_large_rejected_witness :
    decode_grpc_frame_with_max_size (0 :: 0 :: 0 :: 1 :: 0 :: [7, 7]) 10 =
      .error (.messageTooLarge 256 10) ∧
    GrpcFrameDecoder.decode_next ⟨0 :: 0 :: 0 :: 1 :: 0 :: [7, 7], 10⟩ =
      (.error (.messageTooLarge 256 10), ⟨0 :: 0 :: 0 :: 1 :: 0 :: [7, 7], 10⟩) :=
  grpc_decode_header_too_large_rejected 0 0 0 1 0 [7, 7] 10 (by decide)

-- ====================
-- Theorems: C2 (HostRouter wildcard membership)
-- ====================

theorem mem_foldl_collect (l : List (Str × List Nat)) (acc : List Nat) (p : Str → Bool)
    (j : Nat) :
    j ∈ l.foldl (fun acc e => if p e.1 then acc ++ e.2 else acc) acc ↔
      j ∈ acc ∨ ∃ e ∈ l, p e.1 = true ∧ j ∈ e.2 := by
  induction l generalizing acc with
  | nil => simp
  | cons e rest ih =>
    simp only [List.foldl_cons]
    by_cases hp : p e.1 = true
    · rw [if_pos hp, ih]
      simp only [List.mem_append, List.mem_cons, hp]
      constructor
      · rintro ((h | h) | ⟨e', he', hp', hj⟩)
        · exact Or.inl h
        · exact Or.inr ⟨e, Or.inl rfl, hp, h⟩
        · exact Or.inr ⟨e', Or.inr he', hp', hj⟩
      · rintro (h | ⟨e', (rfl | he'), hp', hj⟩)
        · exact Or.inl (Or.inl h)
        · exact Or.inl (Or.inr hj)
        · exact Or.inr ⟨e', he', hp', hj⟩
    · rw [if_neg hp, ih]
      constructor
      · rintro (h | ⟨e', he', hp', hj⟩)
        · exact Or.inl h
        · exact Or.inr ⟨e', List.mem_cons_of_mem _ he', hp', hj⟩
      · rintro (h | ⟨e', he', hp', hj⟩)
        · exact Or.inl h
        · rcases List.mem_cons.mp he' with rfl | he''
          · exact absurd hp' hp
          · exact Or.inr ⟨e', he'', hp', hj⟩

theorem mem_host_get_candidates (r : HostRouter) (host : Str) (j : Nat) :
    j ∈ r.get_candidates host ↔
      ((∃ e, r.exact.find? (fun e => decide (e.1 = hostOnlyOf host)) = some e ∧ j ∈ e.2) ∨
       (∃ e ∈ r.wildcard, wEntryMatches e.1 (hostOnlyOf host) = true ∧ j ∈ e.2) ∨
       j ∈ r.any_host) := by
  simp only [HostRouter.get_candidates]
  rw [List.mem_append,
    mem_foldl_collect r.wildcard _ (fun s => wEntryMatches s (hostOnlyOf host)) j]
  cases hf : r.exact.find? (fun e => decide (e.1 = hostOnlyOf host)) with
  | none => simp [hf]
  | some e =>
    simp only [hf]
    constructor
    · rintro ((h | h) | h)
      · exact Or.inl ⟨e, rfl, h⟩
      · exact Or.inr (Or.inl h)
      · exact Or.inr (Or.inr h)
    · rintro (⟨e', he', hj⟩ | h | h)
      · injection he' with he''
        subst he''
        exact Or.inl (Or.inl hj)
      · exact Or.inl (Or.inr h)
      · exact Or.inr h

theorem mem_get_candidates_occurs {j : Nat} {r : HostRouter} {host : Str}
    (h : j ∈ r.get_candidates host) : idxInHostRouter j r := by
  rw [mem_host_get_candidates] at h
  rcases h with ⟨e, hf, hj⟩ | ⟨e, he, _, hj⟩ | hj
  · exact Or.inl ⟨e, List.mem_of_find?_eq_some hf, hj⟩
  · exact Or.inr (Or.inl ⟨e, he, hj⟩)
  · exact Or.inr (Or.inr hj)

theorem pushFirstW_occurs {m : List (Str × List Nat)} {k : Str} {idx j : Nat}
    (h : ∃ e ∈ pushFirstW m k idx, j ∈ e.2) : (∃ e ∈ m, j ∈ e.2) ∨ j = idx := by
  induction m with
  | nil => simp [pushFirstW] at h
  | cons e0 rest ih =>
    simp only [pushFirstW] at h
    by_cases hk : e0.1 = k
    · rw [if_pos hk] at h
      rcases h with ⟨e, he, hj⟩
      rcases List.mem_cons.mp he with rfl | hmem
      · rcases List.mem_append.mp hj with h1 | h1
        · exact Or.inl ⟨e0, List.mem_cons_self .., h1⟩
        · simp only [List.mem_singleton] at h1
          exact Or.inr h1
      · exact Or.inl ⟨e, List.mem_cons_of_mem _ hmem, hj⟩
    · rw [if_neg hk] at h
      rcases h with ⟨e, he, hj⟩
      rcases List.mem_cons.mp he with rfl | hmem
      · exact Or.inl ⟨e, List.mem_cons_self .., hj⟩
      · rcases ih ⟨e, hmem, hj⟩ with ⟨e', he', hj'⟩ | h1
        · exact Or.inl ⟨e', List.mem_cons_of_mem _ he', hj'⟩
        · exact Or.inr h1

theorem add_route_bound {r : HostRouter} {i : Nat} (c : Option Str)
    (h : hostRouterIdxLt r i) : hostRouterIdxLt (r.add_route i c) (i + 1) := by
  intro j hj
  have hlt : idxInHostRouter j r → j < i + 1 := fun hin => Nat.lt_succ_of_lt (h j hin)
  match c with
  | none =>
    rcases hj with he | hw | ha
    · exact hlt (Or.inl he)
    · exact hlt (Or.inr (Or.inl hw))
    · simp only [HostRouter.add_route, List.mem_append, List.mem_singleton] at ha
      rcases ha with ha | rfl
      · exact hlt (Or.inr (Or.inr ha))
      · exact Nat.lt_succ_self _
  | some pattern =>
    cases hs : stripStarDot pattern with
    | some suffix =>
      simp only [HostRouter.add_route, hs] at hj
      by_cases hany : r.wildcard.any (fun e => e.1 = suffix)
      · rw [if_pos hany] at hj
        rcases hj with he | hw | ha
        · exact hlt (Or.inl he)
        · rcases pushFirstW_occurs hw with hw' | rfl
          · exact hlt (Or.inr (Or.inl hw'))
          · exact Nat.lt_succ_self _
        · exact hlt (Or.inr (Or.inr ha))
      · rw [if_neg hany] at hj
        rcases hj with he | hw | ha
        · exact hlt (Or.inl he)
        · rcases hw with ⟨e, he, hj2⟩
          rcases List.mem_append.mp he with he' | he'
          · exact hlt (Or.inr (Or.inl ⟨e, he', hj2⟩))
          · simp only [List.mem_singleton] at he'
            subst he'
            simp only [List.mem_singleton] at hj2
            subst hj2
            exact Nat.lt_succ_self _
        · exact hlt (Or.inr (Or.inr ha))
    | none =>
      simp only [HostRouter.add_route, hs] at hj
      by_cases hdot : (['.', '*'] : Str).isSuffixOf pattern
      · rw [if_pos hdot] at hj
        by_cases hany : r.wildcard.any
            (fun e => e.1 = markerStr ++ lowerStr (pattern.dropLast.dropLast))
        · rw [if_pos hany] at hj
          rcases hj with he | hw | ha
          · exact hlt (Or.inl he)
          · rcases pushFirstW_occurs hw with hw' | rfl
            · exact hlt (Or.inr (Or.inl hw'))
            · exact Nat.lt_succ_self _
          · exact hlt (Or.inr (Or.inr ha))
        · rw [if_neg hany] at hj
          rcases hj with he | hw | ha
          · exact hlt (Or.inl he)
          · rcases hw with ⟨e, he, hj2⟩
            rcases List.mem_append.mp he with he' | he'
            · exact hlt (Or.inr (Or.inl ⟨e, he', hj2⟩))
            · simp only [List.mem_singleton] at he'
              subst he'
              simp only [List.mem_singleton] at hj2
              subst hj2
              exact Nat.lt_succ_self _
          · exact hlt (Or.inr (Or.inr ha))
      · rw [if_neg hdot] at hj
        rcases hj with he | hw | ha
        · simp only [bumpEntry] at he
          by_cases hany : r.exact.any (fun e => e.1 = lowerStr pattern)
          · rw [if_pos hany] at he
            rcases pushFirstW_occurs he with he' | rfl
            · exact hlt (Or.inl he')
            · exact Nat.lt_succ_self _
          · rw [if_neg hany] at he
            rcases he with ⟨e, he, hj2⟩
            rcases List.mem_append.mp he with he' | he'
            · exact hlt (Or.inl ⟨e, he', hj2⟩)
            · simp only [List.mem_singleton] at he'
              subst he'
              simp only [List.mem_singleton] at hj2
              subst hj2
              exact Nat.lt_succ_self _
        · exact hlt (Or.inr (Or.inl hw))
        · exact hlt (Or.inr (Or.inr ha))

theorem mem_entries_cons {e0 : Str × List Nat} {m : List (Str × List Nat)} {P : Str → Bool}
    {j : Nat} :
    (∃ e ∈ e0 :: m, P e.1 = true ∧ j ∈ e.2) ↔
      (P e0.1 = true ∧ j ∈ e0.2) ∨ (∃ e ∈ m, P e.1 = true ∧ j ∈ e.2) := by
  constructor
  · rintro ⟨e, he, hp, hj⟩
    rcases List.mem_cons.mp he with rfl | he'
    · exact Or.inl ⟨hp, hj⟩
    · exact Or.inr ⟨e, he', hp, hj⟩
  · rintro (⟨hp, hj⟩ | ⟨e, he, hp, hj⟩)
    · exact ⟨e0, List.mem_cons_self .., hp, hj⟩
    · exact ⟨e, List.mem_cons_of_mem _ he, hp, hj⟩

theorem mem_entries_pushFirstW_ne {m : List (Str × List Nat)} {k : Str} {idx j : Nat}
    {P : Str → Bool} (hne : j ≠ idx) :
    (∃ e ∈ pushFirstW m k idx, P e.1 = true ∧ j ∈ e.2) ↔
      (∃ e ∈ m, P e.1 = true ∧ j ∈ e.2) := by
  induction m with
  | nil => simp [pushFirstW]
  | cons e0 rest ih =>
    simp only [pushFirstW]
    by_cases hk : e0.1 = k
    · rw [if_pos hk, mem_entries_cons, mem_entries_cons]
      have : (j ∈ e0.2 ++ [idx]) ↔ j ∈ e0.2 := by
        simp [List.mem_append, hne]
      rw [show ((e0.1, e0.2 ++ [idx]) : Str × List Nat).1 = e0.1 from rfl,
        show ((e0.1, e0.2 ++ [idx]) : Str × List Nat).2 = e0.2 ++ [idx] from rfl, this]
    · rw [if_neg hk, mem_entries_cons, mem_entries_cons, ih]

theorem mem_entries_append_one_ne {m : List (Str × List Nat)} {k : Str} {idx j : Nat}
    {P : Str → Bool} (hne : j ≠ idx) :
    (∃ e ∈ m ++ [(k, [idx])], P e.1 = true ∧ j ∈ e.2) ↔
      (∃ e ∈ m, P e.1 = true ∧ j ∈ e.2) := by
  constructor
  · rintro ⟨e, he, hp, hj⟩
    rcases List.mem_append.mp he with he' | he'
    · exact ⟨e, he', hp, hj⟩
    · simp only [List.mem_singleton] at he'
      subst he'
      simp only [List.mem_singleton] at hj
      exact absurd hj hne
  · rintro ⟨e, he, hp, hj⟩
    exact ⟨e, List.mem_append.mpr (Or.inl he), hp, hj⟩

theorem find?_pushFirstW_ne {m : List (Str × List Nat)} {k key : Str} {idx j : Nat}
    (hne : j ≠ idx) :
    (∃ e, (pushFirstW m k idx).find? (fun e => decide (e.1 = key)) = some e ∧ j ∈ e.2) ↔
      (∃ e, m.find? (fun e => decide (e.1 = key)) = some e ∧ j ∈ e.2) := by
  induction m with
  | nil => simp [pushFirstW]
  | cons e0 rest ih =>
    simp only [pushFirstW]
    by_cases hk : e0.1 = k
    · rw [if_pos hk]
      by_cases hkey : e0.1 = key
      · rw [List.find?_cons_of_pos _ (by simp [hkey]),
          List.find?_cons_of_pos _ (by simp [hkey])]
        constructor
        · rintro ⟨e, he, hj⟩
          injection he with he'
          subst he'
          refine ⟨e0, rfl, ?_⟩
          rcases List.mem_append.mp hj with h | h
          · exact h
          · simp only [List.mem_singleton] at h
            exact absurd h hne
        · rintro ⟨e, he, hj⟩
          injection he with he'
          subst he'
          exact ⟨(e0.1, e0.2 ++ [idx]), rfl, List.mem_append.mpr (Or.inl hj)⟩
      · rw [List.find?_cons_of_neg _ (by simp [hkey]),
          List.find?_cons_of_neg _ (by simp [hkey])]
    · rw [if_neg hk]
      by_cases hkey : e0.1 = key
      · rw [List.find?_cons_of_pos _ (by simp [hkey]),
          List.find?_cons_of_pos _ (by simp [hkey])]
      · rw [List.find?_cons_of_neg _ (by simp [hkey]),
          List.find?_cons_of_neg _ (by simp [hkey])]
        exact ih

theorem find?_append_one_ne {m : List (Str × List Nat)} {k key : Str} {idx j : Nat}
    (hne : j ≠ idx) :
    (∃ e, (m ++ [(k, [idx])]).find? (fun e => decide (e.1 = key)) = some e ∧ j ∈ e.2) ↔
      (∃ e, m.find? (fun e => decide (e.1 = key)) = some e ∧ j ∈ e.2) := by
  induction m with
  | nil =>
    simp only [List.nil_append, List.find?_nil]
    by_cases hkey : k = key
    · rw [List.find?_cons_of_pos _ (by simp [hkey])]
      constructor
      · rintro ⟨e, he, hj⟩
        injection he with he'
        subst he'
        simp only [List.mem_singleton] at hj
        exact absurd hj hne
      · rintro ⟨e, he, _⟩
        cases he
    · rw [List.find?_cons_of_neg _ (by simp [hkey])]
      simp
  | cons e0 rest ih =>
    simp only [List.cons_append]
    by_cases hkey : e0.1 = key
    · rw [List.find?_cons_of_pos _ (by simp [hkey]),
        List.find?_cons_of_pos _ (by simp [hkey])]
    · rw [List.find?_cons_of_neg _ (by simp [hkey]),
        List.find?_cons_of_neg _ (by simp [hkey])]
      exact ih

theorem mem_host_get_candidates_mk (ex w : List (Str × List Nat)) (a : List Nat)
    (host : Str) (j : Nat) :
    j ∈ (HostRouter.mk ex w a).get_candidates host ↔
      eMemP ex (hostOnlyOf host) j ∨ wMemP w (hostOnlyOf host) j ∨ j ∈ a :=
  mem_host_get_candidates ⟨ex, w, a⟩ host j

theorem wMemP_cons {e0 : Str × List Nat} {m : List (Str × List Nat)} {ho : Str} {j : Nat} :
    wMemP (e0 :: m) ho j ↔ (wEntryMatches e0.1 ho = true ∧ j ∈ e0.2) ∨ wMemP m ho j :=
  mem_entries_cons (P := fun s => wEntryMatches s ho)

theorem wMemP_pushFirstW_ne {m : List (Str × List Nat)} {k ho : Str} {idx j : Nat}
    (hne : j ≠ idx) : wMemP (pushFirstW m k idx) ho j ↔ wMemP m ho j :=
  mem_entries_pushFirstW_ne (P := fun s => wEntryMatches s ho) hne

theorem wMemP_append_one_ne {m : List (Str × List Nat)} {k ho : Str} {idx j : Nat}
    (hne : j ≠ idx) : wMemP (m ++ [(k, [idx])]) ho j ↔ wMemP m ho j :=
  mem_entries_append_one_ne (P := fun s => wEntryMatches s ho) hne

theorem eMemP_pushFirstW_ne {m : List (Str × List Nat)} {k key : Str} {idx j : Nat}
    (hne : j ≠ idx) : eMemP (pushFirstW m k idx) key j ↔ eMemP m key j :=
  find?_pushFirstW_ne hne

theorem eMemP_append_one_ne {m : List (Str × List Nat)} {k key : Str} {idx j : Nat}
    (hne : j ≠ idx) : eMemP (m ++ [(k, [idx])]) key j ↔ eMemP m key j :=
  find?_append_one_ne hne

theorem add_route_other_mem {ex w : List (Str × List Nat)} {a : List Nat} {i j : Nat}
    (c : Option Str) {host : Str} (hne : j ≠ i) :
    j ∈ ((HostRouter.mk ex w a).add_route i c).get_candidates host ↔
      j ∈ (HostRouter.mk ex w a).get_candidates host := by
  match c with
  | none =>
    have heq : (HostRouter.mk ex w a).add_route i none = ⟨ex, w, a ++ [i]⟩ := rfl
    rw [heq, mem_host_get_candidates_mk, mem_host_get_candidates_mk]
    have ha : j ∈ a ++ [i] ↔ j ∈ a := by simp [hne]
    rw [ha]
  | some pattern =>
    cases hs : stripStarDot pattern with
    | some suffix =>
      by_cases hany : w.any (fun e => e.1 = suffix)
      · have heq : (HostRouter.mk ex w a).add_route i (some pattern) =
            ⟨ex, pushFirstW w suffix i, a⟩ := by
          simp only [HostRouter.add_route, hs]
          rw [if_pos hany]
        rw [heq, mem_host_get_candidates_mk, mem_host_get_candidates_mk,
          wMemP_pushFirstW_ne hne]
      · have heq : (HostRouter.mk ex w a).add_route i (some pattern) =
            ⟨ex, w ++ [(lowerStr suffix, [i])], a⟩ := by
          simp only [HostRouter.add_route, hs]
          rw [if_neg hany]
        rw [heq, mem_host_get_candidates_mk, mem_host_get_candidates_mk,
          wMemP_append_one_ne hne]
    | none =>
      by_cases hdot : (['.', '*'] : Str).isSuffixOf pattern
      · by_cases hany : w.any (fun e => e.1 = markerStr ++ lowerStr (pattern.dropLast.dropLast))
        · have heq : (HostRouter.mk ex w a).add_route i (some pattern) =
              ⟨ex, pushFirstW w (markerStr ++ lowerStr (pattern.dropLast.dropLast)) i, a⟩ := by
            simp only [HostRouter.add_route, hs]
            rw [if_pos hdot, if_pos hany]
          rw [heq, mem_host_get_candidates_mk, mem_host_get_candidates_mk,
            wMemP_pushFirstW_ne hne]
        · have heq : (HostRouter.mk ex w a).add_route i (some pattern) =
              ⟨ex, w ++ [(markerStr ++ lowerStr (pattern.dropLast.dropLast), [i])], a⟩ := by
            simp only [HostRouter.add_route, hs]
            rw [if_pos hdot, if_neg hany]
          rw [heq, mem_host_get_candidates_mk, mem_host_get_candidates_mk,
            wMemP_append_one_ne hne]
      · have heq : (HostRouter.mk ex w a).add_route i (some pattern) =
            ⟨bumpEntry ex (lowerStr pattern) i, w, a⟩ := by
          simp only [HostRouter.add_route, hs]
          rw [if_neg hdot]
        rw [heq, mem_host_get_candidates_mk, mem_host_get_candidates_mk]
        simp only [bumpEntry]
        by_cases hany : ex.any (fun e => e.1 = lowerStr pattern)
        · rw [if_pos hany, eMemP_pushFirstW_ne hne]
        · rw [if_neg hany, eMemP_append_one_ne hne]

theorem wMemP_pushFirstW_self {m : List (Str × List Nat)} {k ho : Str} {idx : Nat}
    (hfresh : ∀ e ∈ m, idx ∉ e.2)
    (hany : m.any (fun e => decide (e.1 = k)) = true) :
    wMemP (pushFirstW m k idx) ho idx ↔ wEntryMatches k ho = true := by
  induction m with
  | nil => simp at hany
  | cons e0 rest ih =>
    simp only [pushFirstW]
    by_cases hk : e0.1 = k
    · rw [if_pos hk, wMemP_cons]
      constructor
      · rintro (⟨hp, _⟩ | h)
        · rw [← hk]
          exact hp
        · exfalso
          rcases h with ⟨e, he, _, hj⟩
          exact hfresh e (List.mem_cons_of_mem _ he) hj
      · intro hp
        exact Or.inl ⟨by rw [hk]; exact hp, by simp⟩
    · rw [if_neg hk, wMemP_cons]
      have hany' : rest.any (fun e => decide (e.1 = k)) = true := by
        rcases List.any_eq_true.mp hany with ⟨e, he, hp⟩
        rcases List.mem_cons.mp he with rfl | he'
        · simp only [decide_eq_true_eq] at hp
          exact absurd hp hk
        · exact List.any_eq_true.mpr ⟨e, he', hp⟩
      rw [ih (fun e he => hfresh e (List.mem_cons_of_mem _ he)) hany']
      constructor
      · rintro (⟨_, hj⟩ | h)
        · exact absurd hj (hfresh e0 (List.mem_cons_self ..))
        · exact h
      · intro hp
        exact Or.inr hp

theorem wMemP_append_one_self {m : List (Str × List Nat)} {k ho : Str} {idx : Nat}
    (hfresh : ∀ e ∈ m, idx ∉ e.2) :
    wMemP (m ++ [(k, [idx])]) ho idx ↔ wEntryMatches k ho = true := by
  constructor
  · rintro ⟨e, he, hp, hj⟩
    rcases List.mem_append.mp he with he' | he'
    · exact absurd hj (hfresh e he')
    · simp only [List.mem_singleton] at he'
      subst he'
      exact hp
  · intro hp
    exact ⟨(k, [idx]), List.mem_append.mpr (Or.inr (List.mem_singleton.mpr rfl)), hp, by simp⟩

theorem add_route_wildcard_self_mem {ex w : List (Str × List Nat)} {a : List Nat}
    {i : Nat} {suf host : Str}
    (hfresh : ¬ idxInHostRouter i ⟨ex, w, a⟩) (hlow : lowerStr suf = suf) :
    (i ∈ ((HostRouter.mk ex w a).add_route i (some ('*' :: '.' :: suf))).get_candidates host ↔
      wEntryMatches suf (hostOnlyOf host) = true) := by
  have hs : stripStarDot ('*' :: '.' :: suf) = some suf := rfl
  have hex : ∀ e ∈ ex, i ∉ e.2 := fun e he hj => hfresh (Or.inl ⟨e, he, hj⟩)
  have hw : ∀ e ∈ w, i ∉ e.2 := fun e he hj => hfresh (Or.inr (Or.inl ⟨e, he, hj⟩))
  have ha : i ∉ a := fun hj => hfresh (Or.inr (Or.inr hj))
  have hekill : ¬ eMemP ex (hostOnlyOf host) i := by
    rintro ⟨e, hf, hj⟩
    exact hex e (List.mem_of_find?_eq_some hf) hj
  by_cases hany : w.any (fun e => e.1 = suf)
  · have heq : (HostRouter.mk ex w a).add_route i (some ('*' :: '.' :: suf)) =
        ⟨ex, pushFirstW w suf i, a⟩ := by
      simp only [HostRouter.add_route, hs]
      rw [if_pos hany]
    rw [heq, mem_host_get_candidates_mk, wMemP_pushFirstW_self hw hany]
    constructor
    · rintro (he | hp | ha')
      · exact absurd he hekill
      · exact hp
      · exact absurd ha' ha
    · intro hp
      exact Or.inr (Or.inl hp)
  · have heq : (HostRouter.mk ex w a).add_route i (some ('*' :: '.' :: suf)) =
        ⟨ex, w ++ [(lowerStr suf, [i])], a⟩ := by
      simp only [HostRouter.add_route, hs]
      rw [if_neg hany]
    rw [heq, mem_host_get_candidates_mk, hlow, wMemP_append_one_self hw]
    constructor
    · rintro (he | hp | ha')
      · exact absurd he hekill
      · exact hp
      · exact absurd ha' ha
    · intro hp
      exact Or.inr (Or.inl hp)

theorem build_preserves_mem (conds : List (Option Str)) :
    ∀ (i : Nat) (r : HostRouter) (j : Nat) (host : Str), j < i →
      (j ∈ (buildHostRouterAux r i conds).get_candidates host ↔
        j ∈ r.get_candidates host) := by
  induction conds with
  | nil =>
    intro i r j host _
    simp [buildHostRouterAux]
  | cons c rest ih =>
    intro i r j host hj
    rw [show buildHostRouterAux r i (c :: rest) =
      buildHostRouterAux (r.add_route i c) (i + 1) rest from rfl]
    rw [ih (i + 1) _ j host (Nat.lt_succ_of_lt hj)]
    obtain ⟨ex, w, a⟩ := r
    exact add_route_other_mem c (Nat.ne_of_lt hj)

theorem build_wildcard_mem_aux (conds : List (Option Str)) :
    ∀ (r : HostRouter) (i k : Nat) (suf host : Str),
      conds.get? k = some (some ('*' :: '.' :: suf)) →
      lowerStr suf = suf →
      hostRouterIdxLt r i →
      ((i + k) ∈ (buildHostRouterAux r i conds).get_candidates host ↔
        wEntryMatches suf (hostOnlyOf host) = true) := by
  induction conds with
  | nil =>
    intro r i k suf host hk
    simp at hk
  | cons c rest ih =>
    intro r i k suf host hk hlow hbound
    match k with
    | 0 =>
      rw [List.get?_cons_zero] at hk
      injection hk with hc
      subst hc
      rw [show i + 0 = i from rfl]
      rw [show buildHostRouterAux r i (some ('*' :: '.' :: suf) :: rest) =
        buildHostRouterAux (r.add_route i (some ('*' :: '.' :: suf))) (i + 1) rest from rfl]
      rw [build_preserves_mem rest (i + 1) _ i host (Nat.lt_succ_self i)]
      obtain ⟨ex, w, a⟩ := r
      exact add_route_wildcard_self_mem
        (fun hin => absurd (hbound i hin) (lt_irrefl i)) hlow
    | k' + 1 =>
      rw [List.get?_cons_succ] at hk
      rw [show buildHostRouterAux r i (c :: rest) =
        buildHostRouterAux (r.add_route i c) (i + 1) rest from rfl]
      rw [show i + (k' + 1) = (i + 1) + k' by omega]
      exact ih (r.add_route i c) (i + 1) k' suf host hk hlow (add_route_bound c hbound)

/-- C2: in the host router built from any route-condition list, a route
whose host condition is the wildcard pattern `*.example.com` is among the
candidates for host `foo.example.com` (also with uppercase letters and a
trailing port, since comparison is lowercased and the port stripped), but
not for `example.com` and not for `bar.foo.example.com`. -/
theorem host_router_wildcard_example (conds : List (Option Str)) (k : Nat)
    (hk : conds.get? k = some (some ("*.example.com".data))) :
    k ∈ (buildHostRouter conds).get_candidates ("foo.example.com".data) ∧
    k ∈ (buildHostRouter conds).get_candidates ("FOO.Example.COM:8443".data) ∧
    k ∉ (buildHostRouter conds).get_candidates ("example.com".data) ∧
    k ∉ (buildHostRouter conds).get_candidates ("bar.foo.example.com".data) := by
  have hpat : ("*.example.com".data : Str) = '*' :: '.' :: "example.com".data := by decide
  rw [hpat] at hk
  have hlow : lowerStr ("example.com".data) = "example.com".data := by decide
  have hb : hostRouterIdxLt HostRouter.new 0 := by
    intro j hj
    rcases hj with ⟨e, he, _⟩ | ⟨e, he, _⟩ | h
    · simp [HostRouter.new] at he
    · simp [HostRouter.new] at he
    · simp [HostRouter.new] at h
  have hmem : ∀ host : Str,
      (k ∈ (buildHostRouter conds).get_candidates host ↔
        wEntryMatches ("example.com".data) (hostOnlyOf host) = true) := by
    intro host
    have h := build_wildcard_mem_aux conds HostRouter.new 0 k ("example.com".data) host
      hk hlow hb
    rw [Nat.zero_add] at h
    exact h
  refine ⟨?_, ?_, ?_, ?_⟩
  · exact (hmem _).mpr (by decide)
  · exact (hmem _).mpr (by decide)
  · intro hcontra
    exact absurd ((hmem _).mp hcontra) (by decide)
  · intro hcontra
    exact absurd ((hmem _).mp hcontra) (by decide)

theorem host_router_wildcard_example_witness :
    0 ∈ (buildHostRouter [some ("*.example.com".data)]).get_candidates
      ("foo.example.com".data) ∧
    0 ∈ (buildHostRouter [some ("*.example.com".data)]).get_candidates
      ("FOO.Example.COM:8443".data) ∧
    0 ∉ (buildHostRouter [some ("*.example.com".data)]).get_candidates
      ("example.com".data) ∧
    0 ∉ (buildHostRouter [some ("*.example.com".data)]).get_candidates
      ("bar.foo.example.com".data) :=
  host_router_wildcard_example [some ("*.example.com".data)] 0 (by decide)

-- ====================
-- Theorems: C1 and C3 (PathRouter at_mut contamination)
-- ====================

/-- C1: the optimized lookup diverges from the naive linear scan.  On the
table `[{host: a.com, path: /a/*}, {host: b.com, path: /a/b}]` and the
request `GET b.com /a/zzz`, the optimized router (empty cache) returns
route 1 even though route 1's declared path condition `/a/b` does not match
`/a/zzz`, while the naive scan returns `None`: building the index for route
1 probes the radix tree with `at_mut("/a/b")`, which resolves route 0's
catch-all node `/a/{*rest}` and appends route 1 to it, so route 1 becomes a
path candidate for every `/a/...` path and the post-candidate verification
re-checks only method/header/query, not the path. -/
theorem optimized_router_diverges_from_naive_scan :
    (find_route_cached routesC1 [] reqC1).1 = some 1 ∧
    naive_find_route routesC1 reqC1 = none ∧
    specPathMatches (some ("/a/b".data)) ("/a/zzz".data) = false := by
  decide

/-- C3: a route with path condition `/a/*` is among the path candidates
for `/a`, `/a/`, and `/a/b/c` and (alone) not for `/ab`; but in a router
also containing an earlier `/*` route, the `/a/*` route IS among the
candidates for `/ab` — `add_route` probed the tree with
`at_mut("/a/{*rest}")`, which resolved the earlier catch-all node
`/{*rest}` and appended the route there — although `matches_pattern`
rejects `/ab`, refuting the claim's universal non-membership. -/
theorem path_router_slash_a_star_candidates :
    0 ∈ (buildPathRouter [some ("/a/*".data)]).get_candidates ("/a".data) ∧
    0 ∈ (buildPathRouter [some ("/a/*".data)]).get_candidates ("/a/".data) ∧
    0 ∈ (buildPathRouter [some ("/a/*".data)]).get_candidates ("/a/b/c".data) ∧
    0 ∉ (buildPathRouter [some ("/a/*".data)]).get_candidates ("/ab".data) ∧
    1 ∈ (buildPathRouter [some ("/*".data), some ("/a/*".data)]).get_candidates ("/ab".data) ∧
    matches_pattern ("/a/*".data) ("/ab".data) = false := by
  decide
